import Mathlib

/-!
Verification of the workflow graph editor
(`src/frontend/src/views-admin/module_application/workflow/index.vue` and its
`NodeConfigPanel`/`EdgeConfigPanel` components).

Two embeddings are used:

* a typed model (`Workflow` namespace) of the graph, the selection state, the
  clipboard and the history stack, for the structural operations
  (`saveToHistory`/`undo`/`redo`, `handleDeleteNode`, `handleCopy`/`handlePaste`,
  `handleSaveNode`/`handleSaveEdge`, `handleValidate`);
* a JS-value-level model (`WorkflowJS` namespace) for the persistence handlers
  (`handleLoad`, `handleFileChange`), whose behaviour depends on JavaScript
  dynamics: member access on arbitrary parsed JSON values, truthiness tests,
  and `JSON.parse(JSON.stringify(x))` throwing when `x` is `undefined`.

History snapshots in the source are deep copies made by serialising to JSON and
parsing back; on the immutable values of the model this copy is the identity,
so it is not represented explicitly in the typed model.  In the JS-level model
only its one observable failure mode is kept: it throws iff the serialised
value is `undefined`.
-/

namespace Workflow

/-- A primitive value stored in a node's `data` payload (the payloads written
by the source are flat objects of strings, numbers and booleans). -/
inductive Val where
  | str (s : String)
  | num (n : Int)
  | bool (b : Bool)
deriving DecidableEq

/-- A JS object as an ordered association list, as used for node `data`
payloads and the config-panel form payloads. -/
abbrev Obj := List (String × Val)

/-- A canvas node: `id`, `type`, `data` payload, `position` and the decorative
class (`class:` in the source; `cls` here since `class` is a Lean keyword). -/
structure Node where
  id : String
  type : String
  data : Obj
  position : Int × Int
  cls : String
deriving DecidableEq

/-- The `style: { stroke, strokeWidth }` sub-object written by `handleSaveEdge`. -/
structure EdgeStyle where
  stroke : String
  strokeWidth : Int
deriving DecidableEq

/-- The `data: { condition, description }` sub-object written by `handleSaveEdge`. -/
structure EdgeData where
  condition : String
  description : String
deriving DecidableEq

/-- A canvas edge. -/
structure Edge where
  id : String
  source : String
  target : String
  label : String
  type : String
  animated : Bool
  style : EdgeStyle
  data : EdgeData
deriving DecidableEq

/-- One history snapshot: the full node and edge lists (`{ nodes, edges }`). -/
abbrev Snap := List Node × List Edge

/-- `const maxHistory = 50`. -/
def maxHistory : Nat := 50

/-- The editor state: the graph (`nodes`/`edges` refs), the history stack
(`history`/`historyIndex`), the selection machine (`updateState`,
`selectedNode`, `selectedEdge`) and the `clipboard`. -/
structure EState where
  nodes : List Node
  edges : List Edge
  history : List Snap
  historyIndex : Int
  updateState : String
  selectedNode : Option Node
  selectedEdge : Option Edge
  clipboard : Option Node
deriving DecidableEq

/-- The state before any interaction with a given starting graph: empty
history and `historyIndex = -1`, nothing selected, empty clipboard. -/
def initState (ns : List Node) (es : List Edge) : EState :=
  { nodes := ns, edges := es, history := [], historyIndex := -1,
    updateState := "", selectedNode := none, selectedEdge := none,
    clipboard := none }

/-- The body of `saveToHistory` acting on the `history`/`historyIndex` pair:
truncate the redo tail (`history.slice(0, historyIndex + 1)`) when the index is
not at the last entry, push the snapshot, then either shift the oldest entry
out (when over `maxHistory`, leaving the index alone) or advance the index. -/
def pushHistory {σ : Type} (h : List σ) (i : Int) (snap : σ) : List σ × Int :=
  let h0 := if i < (h.length : Int) - 1 then h.take (i + 1).toNat else h
  let h1 := h0 ++ [snap]
  if maxHistory < h1.length then (h1.drop 1, i) else (h1, i + 1)

/-- `saveToHistory()`: snapshot the current graph into the history stack. -/
def saveToHistory (s : EState) : EState :=
  let p := pushHistory s.history s.historyIndex (s.nodes, s.edges)
  { s with history := p.1, historyIndex := p.2 }

/-- `undo()`: when `historyIndex > 0`, decrement it and restore that snapshot
into the live graph; otherwise a no-op (with a user-visible notice). -/
def undo (s : EState) : EState :=
  if 0 < s.historyIndex then
    let st := s.history.getD (s.historyIndex - 1).toNat ([], [])
    { s with historyIndex := s.historyIndex - 1, nodes := st.1, edges := st.2 }
  else
    s

/-- `redo()`: when `historyIndex < history.length - 1`, increment it and
restore that snapshot; otherwise a no-op (with a user-visible notice). -/
def redo (s : EState) : EState :=
  if s.historyIndex < (s.history.length : Int) - 1 then
    let st := s.history.getD (s.historyIndex + 1).toNat ([], [])
    { s with historyIndex := s.historyIndex + 1, nodes := st.1, edges := st.2 }
  else
    s

/-- One user-level history action: a `saveToHistory` call, an `undo`, a
`redo`, or a graph mutation (all mutating actions in the source replace the
whole node/edge collections before recording). -/
inductive Act where
  | record
  | undo
  | redo
  | setGraph (ns : List Node) (es : List Edge)

/-- Dispatch one action on the editor state. -/
def stepAct (s : EState) (a : Act) : EState :=
  match a with
  | .record => saveToHistory s
  | .undo => undo s
  | .redo => redo s
  | .setGraph ns es => { s with nodes := ns, edges := es }

/-- Run a sequence of actions from a state. -/
def runActs (s : EState) (acts : List Act) : EState :=
  acts.foldl stepAct s

/-- The history index invariant: either the stack is empty and the index is
`-1`, or the index is a valid position into the stack. -/
def histInv (s : EState) : Prop :=
  (s.history.length = 0 ∧ s.historyIndex = -1) ∨
  (0 ≤ s.historyIndex ∧ s.historyIndex < s.history.length)

/-- The history stack stores the live graph at the current index. -/
def tracked (s : EState) : Prop :=
  0 ≤ s.historyIndex ∧ s.historyIndex < s.history.length ∧
  s.history.getD s.historyIndex.toNat ([], []) = (s.nodes, s.edges)

/-- The current index is the last position of the stack (no pending redo tail). -/
def atTop (s : EState) : Prop :=
  s.historyIndex = (s.history.length : Int) - 1

/-- The action script of the undo/redo round trip: record the starting graph,
apply each of the N mutations followed by a record, then call `undo` N times
and `redo` N times. -/
def roundTripScript (gs : List Snap) : List Act :=
  [Act.record] ++ (gs.flatMap fun g => [Act.setGraph g.1 g.2, Act.record])
    ++ List.replicate gs.length Act.undo ++ List.replicate gs.length Act.redo

/-- A concrete node used by witness scenarios. -/
def demoNode : Node :=
  { id := "n1", type := "task", data := [("label", Val.str "demo")],
    position := (0, 0), cls := "" }

/-- `handleClosePanel()`: return the selection machine to Idle. -/
def handleClosePanel (s : EState) : EState :=
  { s with updateState := "", selectedNode := none, selectedEdge := none }

/-- `handleDeleteNode()` after the user confirms: drop the selected node from
the node list, drop every edge whose source or target equals its id, close
the config panel and record history. -/
def handleDeleteNode (s : EState) : EState :=
  match s.selectedNode with
  | none => s
  | some sel =>
      saveToHistory (handleClosePanel
        { s with
          nodes := s.nodes.filter fun n => n.id != sel.id
          edges := s.edges.filter fun e =>
            e.source != sel.id && e.target != sel.id })

/-- A second concrete node for witness scenarios. -/
def demoNode2 : Node :=
  { id := "n2", type := "output", data := [], position := (5, 5), cls := "" }

/-- A concrete edge between the two demo nodes. -/
def demoEdge12 : Edge :=
  { id := "e1", source := "n1", target := "n2", label := "go",
    type := "smoothstep", animated := true,
    style := { stroke := "", strokeWidth := 1 },
    data := { condition := "", description := "" } }

/-- A concrete self-loop on the second demo node. -/
def demoEdge22 : Edge :=
  { id := "e2", source := "n2", target := "n2", label := "loop",
    type := "smoothstep", animated := false,
    style := { stroke := "", strokeWidth := 1 },
    data := { condition := "", description := "" } }

/-- A concrete editor state with the first demo node selected. -/
def c5State : EState :=
  { nodes := [demoNode2, demoNode], edges := [demoEdge12, demoEdge22],
    history := [], historyIndex := -1, updateState := "node",
    selectedNode := some demoNode, selectedEdge := none, clipboard := none }

/-- The `Date.now()`-based fresh identifier used for pasted and dropped
nodes. -/
def genId (now : Nat) : String := "node-" ++ toString now

/-- `handleCopy()`: when a node is selected (its id is truthy), store a deep
copy of it in the clipboard. -/
def handleCopy (s : EState) : EState :=
  match s.selectedNode with
  | none => s
  | some sel => if sel.id = "" then s else { s with clipboard := some sel }

/-- `handlePaste()`: when the clipboard is non-empty, add a copy of its node
with a fresh id and the position offset by (+50, +50), select the new node,
and record history; the clipboard itself is left untouched. -/
def handlePaste (s : EState) (now : Nat) : EState :=
  match s.clipboard with
  | none => s
  | some c =>
      let newNode : Node :=
        { c with
          id := genId now
          position := (c.position.1 + 50, c.position.2 + 50) }
      saveToHistory
        { s with
          nodes := s.nodes ++ [newNode]
          selectedNode := some newNode
          updateState := "node" }

/-- A concrete editor state with the first demo node selected and nothing in
the clipboard. -/
def c7State : EState :=
  { nodes := [demoNode], edges := [], history := [], historyIndex := -1,
    updateState := "node", selectedNode := some demoNode,
    selectedEdge := none, clipboard := none }

/-- JS object spread `{ ...a, ...b }`: keys of `a` keep their order, taking
`b`'s value when `b` also has the key; keys only in `b` are appended in `b`'s
order. -/
def mergeObj (a b : Obj) : Obj :=
  (a.map fun kv =>
    match b.lookup kv.1 with
    | some v => (kv.1, v)
    | none => kv)
  ++ b.filter fun kv => (a.lookup kv.1).isNone

/-- `handleSaveNode(data)`: replace the node set by all nodes other than the
selected one, followed by the selected node with the form payload
shallow-merged into its data (`{ ...selectedNode.data, ...data }`), then
record history.  The selection state is not changed. -/
def handleSaveNode (s : EState) (form : Obj) : EState :=
  match s.selectedNode with
  | none => s
  | some sel =>
      saveToHistory
        { s with
          nodes := (s.nodes.filter fun n => n.id != sel.id)
            ++ [{ sel with data := mergeObj sel.data form }] }

/-- The payload emitted by the edge config panel's save. -/
structure EdgeForm where
  label : String
  type : String
  animated : Bool
  color : String
  strokeWidth : Int
  condition : String
  description : String

/-- `handleSaveEdge(data)`: replace the edge set by all edges other than the
selected one, followed by the selected edge rebuilt from the form (label,
type, animated flag, `style: { stroke, strokeWidth }` and
`data: { condition, description }`), then record history. -/
def handleSaveEdge (s : EState) (f : EdgeForm) : EState :=
  match s.selectedEdge with
  | none => s
  | some sel =>
      saveToHistory
        { s with
          edges := (s.edges.filter fun e => e.id != sel.id)
            ++ [{ sel with
                  label := f.label
                  type := f.type
                  animated := f.animated
                  style := { stroke := f.color, strokeWidth := f.strokeWidth }
                  data := { condition := f.condition,
                            description := f.description } }] }

/-- A concrete editor state with both a node and an edge selected. -/
def c9State : EState :=
  { nodes := [demoNode2, demoNode], edges := [demoEdge12, demoEdge22],
    history := [], historyIndex := -1, updateState := "node",
    selectedNode := some demoNode, selectedEdge := some demoEdge12,
    clipboard := none }

/-- A concrete edge-config form payload. -/
def demoEdgeForm : EdgeForm :=
  { label := "yes", type := "default", animated := false, color := "#f00",
    strokeWidth := 2, condition := "x > 1", description := "d" }

/-- One validation message pushed by `handleValidate` (errors and
warnings). -/
inductive VMsg where
  | noNodes
  | noStart
  | noEnd
  | multiStart
  | multiEnd
  | srcMissing (name : String)
  | tgtMissing (name : String)
  | orphanNodes (labels : List (Option Val))
deriving DecidableEq

/-- The validation outcome: the error and warning lists, in push order. -/
structure VResult where
  errors : List VMsg
  warnings : List VMsg
deriving DecidableEq

/-- `edge.label || edge.id`: the name used in a dangling-edge error. -/
def edgeName (e : Edge) : String := if e.label = "" then e.id else e.label

/-- The dangling-reference loop of `handleValidate`: for every edge, one
error per endpoint whose id is not in the node id set. -/
def edgeRefErrs (nodeIds : List String) (es : List Edge) : List VMsg :=
  es.flatMap fun e =>
    (if nodeIds.contains e.source then []
     else [VMsg.srcMissing (edgeName e)]) ++
    (if nodeIds.contains e.target then []
     else [VMsg.tgtMissing (edgeName e)])

/-- `handleValidate()`: the structural checks in source order — empty graph,
start-node count, end-node count, dangling edge references, orphan nodes.
Validation reads the graph and never mutates it. -/
def handleValidate (ns : List Node) (es : List Edge) : VResult :=
  let startNodes := ns.filter fun n => n.type == "input"
  let endNodes := ns.filter fun n => n.type == "output"
  let e1 := if ns.length = 0 then [VMsg.noNodes] else []
  let e2 := if startNodes.length = 0 then [VMsg.noStart] else []
  let w2 := if startNodes.length = 0 then []
    else if 1 < startNodes.length then [VMsg.multiStart] else []
  let e3 := if endNodes.length = 0 then [VMsg.noEnd] else []
  let w3 := if endNodes.length = 0 then []
    else if 1 < endNodes.length then [VMsg.multiEnd] else []
  let orphans := ns.filter fun n =>
    !(es.any fun e => e.source == n.id || e.target == n.id)
  let w4 := if 0 < orphans.length
    then [VMsg.orphanNodes (orphans.map fun n => n.data.lookup "label")]
    else []
  { errors := e1 ++ e2 ++ e3 ++ edgeRefErrs (ns.map Node.id) es,
    warnings := w2 ++ w3 ++ w4 }

/-- `errors.length > 0`: the branch that presents the run as failed. -/
def validationFailed (r : VResult) : Bool := !r.errors.isEmpty

/-- A concrete end-kind node for the validator witness. -/
def c6Node : Node :=
  { id := "end", type := "output", data := [], position := (0, 0), cls := "" }

/-- A concrete edge whose source id resolves to no node. -/
def c6Edge : Edge :=
  { id := "e1", source := "ghost", target := "end", label := "go",
    type := "smoothstep", animated := true,
    style := { stroke := "", strokeWidth := 1 },
    data := { condition := "", description := "" } }

end Workflow

namespace WorkflowJS

/-- A JavaScript value as produced by `JSON.parse`, plus `undefined` (the
result of reading a missing property). -/
inductive JVal where
  | undefinedV
  | null
  | bool (b : Bool)
  | num (n : Int)
  | str (s : String)
  | arr (elems : List JVal)
  | obj (fields : List (String × JVal))

/-- JS member access `v.k`: throws a TypeError on `null` and `undefined`,
yields the field (or `undefined` when absent) on an object, and `undefined`
on every other value. -/
def jsGet : JVal → String → Except Unit JVal
  | .undefinedV, _ => .error ()
  | .null, _ => .error ()
  | .obj fields, k => .ok ((fields.lookup k).getD .undefinedV)
  | _, _ => .ok .undefinedV

/-- JS truthiness of a parsed value. -/
def truthy : JVal → Bool
  | .undefinedV => false
  | .null => false
  | .bool b => b
  | .num n => n != 0
  | .str s => s != ""
  | .arr _ => true
  | .obj _ => true

/-- The graph state seen by the load/import handlers at the JS level: the
live `nodes`/`edges` values and the history stack. -/
structure JState where
  nodes : JVal
  edges : JVal
  history : List (JVal × JVal)
  historyIndex : Int

/-- `saveToHistory()` at the JS level.  The snapshot deep copy
`JSON.parse(JSON.stringify(x))` throws iff `x` is `undefined` (on any value
that came out of `JSON.parse` it is the identity); `none` models the thrown
exception, and otherwise the history push of the typed model runs. -/
def jsSaveToHistory (s : JState) : Option JState :=
  match s.nodes with
  | .undefinedV => none
  | _ =>
    match s.edges with
    | .undefinedV => none
    | _ =>
      let p := Workflow.pushHistory s.history s.historyIndex
        (s.nodes, s.edges)
      some { s with history := p.1, historyIndex := p.2 }

/-- The user-visible notice emitted by `handleLoad`. -/
inductive LoadMsg where
  | success
  | loadFailed
  | noSavedData
deriving DecidableEq

/-- The content of the `workflowData` local-storage slot: `none` when the
slot is missing (or holds the empty, falsy string), `some none` when its
text fails `JSON.parse`, `some (some v)` when it parses to `v`. -/
abbrev Slot := Option (Option JVal)

/-- `handleLoad()`: read the slot; warn on a missing slot; otherwise parse
and assign `workflowData.nodes` and `workflowData.edges` into the live
graph, then record history, reporting the load-failed error if anything in
the `try` block throws.  The assignments happen before `saveToHistory` can
throw, so a failure detected there leaves the overwritten values in place. -/
def handleLoad (s : JState) (slot : Slot) : JState × LoadMsg :=
  match slot with
  | none => (s, .noSavedData)
  | some none => (s, .loadFailed)
  | some (some wd) =>
    match jsGet wd "nodes" with
    | .error _ => (s, .loadFailed)
    | .ok ns =>
      match jsGet wd "edges" with
      | .error _ => (s, .loadFailed)
      | .ok es =>
        let s1 : JState := { s with nodes := ns, edges := es }
        match jsSaveToHistory s1 with
        | none => (s1, .loadFailed)
        | some s2 => (s2, .success)

/-- The user-visible notice emitted by the JSON import handler. -/
inductive ImportMsg where
  | success
  | invalidFormat
  | parseFailed
deriving DecidableEq

/-- The imported file after `JSON.parse` of its text: `none` when parsing
throws. -/
abbrev FileText := Option JVal

/-- `handleFileChange(event)`: parse the file text; when both `data.nodes`
and `data.edges` are truthy, replace the graph with them, record history and
report success; when member access succeeds but the check fails, report the
invalid-format notice; when parsing (or anything else in the `try` block)
throws, report the parse-failed notice. -/
def handleFileChange (s : JState) (file : FileText) : JState × ImportMsg :=
  match file with
  | none => (s, .parseFailed)
  | some d =>
    match jsGet d "nodes" with
    | .error _ => (s, .parseFailed)
    | .ok ns =>
      match jsGet d "edges" with
      | .error _ => (s, .parseFailed)
      | .ok es =>
        if truthy ns && truthy es then
          let s1 : JState := { s with nodes := ns, edges := es }
          match jsSaveToHistory s1 with
          | none => (s1, .parseFailed)
          | some s2 => (s2, .success)
        else (s, .invalidFormat)

/-- A concrete JS-level state holding a one-node graph. -/
def c3State : JState :=
  { nodes := .arr [.obj [("id", .str "start")]], edges := .arr [],
    history := [], historyIndex := -1 }

/-- A slot whose text parses to an object with a single field `foo` — it
parses, but holds neither a `nodes` nor an `edges` field. -/
def c3Slot : Slot := some (some (.obj [("foo", .num 1)]))

/-- A concrete JS-level state for the import scenarios. -/
def c4State : JState :=
  { nodes := .arr [.obj [("id", .str "start")]], edges := .arr [],
    history := [(.arr [], .arr [])], historyIndex := 0 }

/-- A concrete well-formed import file. -/
def c4File : JVal := .obj [("nodes", .arr [.str "n"]), ("edges", .arr [])]

end WorkflowJS

namespace Workflow

theorem histInv_saveToHistory (s : EState) (h : histInv s) :
    histInv (saveToHistory s) := by
  rcases h with ⟨h0, hi⟩ | ⟨h0, h1⟩ <;>
  · simp only [saveToHistory, pushHistory, histInv] at *
    split <;> split <;>
      simp_all [List.length_take, List.length_drop, List.length_append] <;>
      omega

theorem histInv_undo (s : EState) (h : histInv s) : histInv (undo s) := by
  rcases h with ⟨h0, hi⟩ | ⟨h0, h1⟩ <;>
  · simp only [undo, histInv] at *
    split <;> simp_all <;> omega

theorem histInv_redo (s : EState) (h : histInv s) : histInv (redo s) := by
  rcases h with ⟨h0, hi⟩ | ⟨h0, h1⟩ <;>
  · simp only [redo, histInv] at *
    split <;> simp_all <;> omega

theorem histInv_stepAct (s : EState) (a : Act) (h : histInv s) :
    histInv (stepAct s a) := by
  cases a with
  | record => exact histInv_saveToHistory s h
  | undo => exact histInv_undo s h
  | redo => exact histInv_redo s h
  | setGraph ns es => exact h

theorem histInv_runActs (acts : List Act) (s : EState) (h : histInv s) :
    histInv (runActs s acts) := by
  induction acts generalizing s with
  | nil => exact h
  | cons a rest ih => exact ih (stepAct s a) (histInv_stepAct s a h)

/-- C1: starting from the initial state (empty history, index `-1`), after any
sequence of `saveToHistory`/`undo`/`redo` calls (interleaved with arbitrary
graph mutations) the history index invariant holds:
`0 <= historyIndex < history.length`, or `history.length = 0` and
`historyIndex = -1` — in particular across eviction at capacity 50 and across
repeated undo/redo at a boundary. -/
theorem c1_history_index_invariant (ns : List Node) (es : List Edge)
    (acts : List Act) : histInv (runActs (initState ns es) acts) := by
  apply histInv_runActs
  simp [histInv, initState]

theorem runActs_append (s : EState) (l1 l2 : List Act) :
    runActs s (l1 ++ l2) = runActs (runActs s l1) l2 :=
  List.foldl_append stepAct s l1 l2

theorem runActs_cons (s : EState) (a : Act) (l : List Act) :
    runActs s (a :: l) = runActs (stepAct s a) l := rfl

theorem pushHistory_at_top {σ : Type} (h : List σ) (i : Int) (snap d : σ)
    (h0 : 0 ≤ i) (h1 : i = (h.length : Int) - 1) :
    0 ≤ (pushHistory h i snap).2 ∧
    (pushHistory h i snap).2 = ((pushHistory h i snap).1.length : Int) - 1 ∧
    (pushHistory h i snap).1.getD (pushHistory h i snap).2.toNat d = snap := by
  have hL : 1 ≤ h.length := by omega
  have hc1 : ¬ (i < (h.length : Int) - 1) := by omega
  simp only [pushHistory, if_neg hc1]
  by_cases hcap : maxHistory < (h ++ [snap]).length
  · simp only [if_pos hcap]
    have hdrop : (h ++ [snap]).drop 1 = h.drop 1 ++ [snap] :=
      List.drop_append_of_le_length hL
    have hlen : ((h ++ [snap]).drop 1).length = h.length := by
      simp [List.length_drop]
    refine ⟨h0, ?_, ?_⟩
    · rw [hlen]; omega
    · rw [hdrop, List.getD_append_right]
      · have hz : i.toNat - (h.drop 1).length = 0 := by
          simp only [List.length_drop]; omega
        rw [hz]; rfl
      · simp only [List.length_drop]; omega
  · simp only [if_neg hcap]
    refine ⟨by omega, ?_, ?_⟩
    · simp only [List.length_append, List.length_cons, List.length_nil]
      omega
    · rw [List.getD_append_right]
      · have hz : (i + 1).toNat - h.length = 0 := by omega
        rw [hz]; rfl
      · omega

theorem saveToHistory_at_top (s : EState) (h0 : 0 ≤ s.historyIndex)
    (h1 : atTop s) :
    tracked (saveToHistory s) ∧ atTop (saveToHistory s) ∧
    (saveToHistory s).nodes = s.nodes ∧ (saveToHistory s).edges = s.edges := by
  have hp := pushHistory_at_top s.history s.historyIndex (s.nodes, s.edges)
    ([], []) h0 h1
  have e1 : (saveToHistory s).history
      = (pushHistory s.history s.historyIndex (s.nodes, s.edges)).1 := rfl
  have e2 : (saveToHistory s).historyIndex
      = (pushHistory s.history s.historyIndex (s.nodes, s.edges)).2 := rfl
  refine ⟨⟨?_, ?_, ?_⟩, ?_, rfl, rfl⟩
  · rw [e2]; exact hp.1
  · rw [e2, e1]
    have := hp.2.1
    have := hp.1
    omega
  · rw [e1, e2]; exact hp.2.2
  · simp only [atTop]; rw [e1, e2]; exact hp.2.1

theorem saveToHistory_init (ns : List Node) (es : List Edge) :
    tracked (saveToHistory (initState ns es)) ∧
    atTop (saveToHistory (initState ns es)) ∧
    (saveToHistory (initState ns es)).nodes = ns ∧
    (saveToHistory (initState ns es)).edges = es := by
  refine ⟨⟨?_, ?_, ?_⟩, ?_, rfl, rfl⟩ <;>
    simp [saveToHistory, pushHistory, initState, maxHistory, tracked, atTop]

theorem runActs_mutate_record (gs : List Snap) :
    ∀ s : EState, tracked s → atTop s →
    tracked (runActs s (gs.flatMap fun g => [Act.setGraph g.1 g.2, Act.record])) ∧
    atTop (runActs s (gs.flatMap fun g => [Act.setGraph g.1 g.2, Act.record])) ∧
    ((runActs s (gs.flatMap fun g => [Act.setGraph g.1 g.2, Act.record])).nodes,
      (runActs s (gs.flatMap fun g => [Act.setGraph g.1 g.2, Act.record])).edges)
        = gs.getLastD (s.nodes, s.edges) := by
  induction gs with
  | nil =>
    intro s ht ha
    exact ⟨ht, ha, rfl⟩
  | cons g rest ih =>
    intro s ht ha
    have hflat : ((g :: rest).flatMap fun g => [Act.setGraph g.1 g.2, Act.record])
        = Act.setGraph g.1 g.2 :: Act.record ::
            (rest.flatMap fun g => [Act.setGraph g.1 g.2, Act.record]) := by
      simp
    rw [hflat, runActs_cons, runActs_cons]
    set s1 : EState := stepAct s (Act.setGraph g.1 g.2) with hs1
    have h1 : s1.historyIndex = s.historyIndex ∧ s1.history = s.history ∧
        s1.nodes = g.1 ∧ s1.edges = g.2 := by
      simp [hs1, stepAct]
    have hrec := saveToHistory_at_top s1 (by rw [h1.1]; exact ht.1)
      (by simp only [atTop, h1.1, h1.2.1]; exact ha)
    have := ih (stepAct s1 Act.record) hrec.1 hrec.2.1
    refine ⟨this.1, this.2.1, ?_⟩
    rw [this.2.2]
    have : (stepAct s1 Act.record).nodes = g.1 ∧
        (stepAct s1 Act.record).edges = g.2 := by
      simp only [stepAct]
      exact ⟨hrec.2.2.1.trans h1.2.2.1, hrec.2.2.2.trans h1.2.2.2⟩
    rw [this.1, this.2, List.getLastD_cons]

theorem undo_tracked (s : EState) (h : tracked s) :
    tracked (undo s) ∧ (undo s).history = s.history ∧
    (undo s).historyIndex
      = if 0 < s.historyIndex then s.historyIndex - 1 else s.historyIndex := by
  obtain ⟨hi0, hi1, hg⟩ := h
  by_cases hpos : 0 < s.historyIndex
  · have hu : undo s =
        { s with
          historyIndex := s.historyIndex - 1
          nodes := (s.history.getD (s.historyIndex - 1).toNat ([], [])).1
          edges := (s.history.getD (s.historyIndex - 1).toNat ([], [])).2 } := by
      simp only [undo, if_pos hpos]
    rw [hu]
    refine ⟨⟨by simp only; omega, by simp only; omega, by simp only⟩,
      rfl, by simp [if_pos hpos]⟩
  · have hu : undo s = s := by simp only [undo, if_neg hpos]
    rw [hu]
    exact ⟨⟨hi0, hi1, hg⟩, rfl, by simp [if_neg hpos]⟩

theorem redo_tracked (s : EState) (h : tracked s) :
    tracked (redo s) ∧ (redo s).history = s.history ∧
    (redo s).historyIndex
      = if s.historyIndex < (s.history.length : Int) - 1 then s.historyIndex + 1
        else s.historyIndex := by
  obtain ⟨hi0, hi1, hg⟩ := h
  by_cases hlt : s.historyIndex < (s.history.length : Int) - 1
  · have hr : redo s =
        { s with
          historyIndex := s.historyIndex + 1
          nodes := (s.history.getD (s.historyIndex + 1).toNat ([], [])).1
          edges := (s.history.getD (s.historyIndex + 1).toNat ([], [])).2 } := by
      simp only [redo, if_pos hlt]
    rw [hr]
    refine ⟨⟨by simp only; omega, by simp only; omega, by simp only⟩,
      rfl, by simp [if_pos hlt]⟩
  · have hr : redo s = s := by simp only [redo, if_neg hlt]
    rw [hr]
    exact ⟨⟨hi0, hi1, hg⟩, rfl, by simp [if_neg hlt]⟩

theorem runActs_undoN (n : Nat) :
    ∀ s : EState, tracked s →
    tracked (runActs s (List.replicate n Act.undo)) ∧
    (runActs s (List.replicate n Act.undo)).history = s.history ∧
    (runActs s (List.replicate n Act.undo)).historyIndex
      = max (s.historyIndex - n) 0 := by
  induction n with
  | zero =>
    intro s ht
    refine ⟨ht, rfl, ?_⟩
    have := ht.1
    simp only [List.replicate, runActs, List.foldl_nil]
    omega
  | succ n ih =>
    intro s ht
    rw [List.replicate_succ, runActs_cons]
    have hu := undo_tracked s ht
    have := ih (stepAct s Act.undo) hu.1
    refine ⟨this.1, this.2.1.trans hu.2.1, ?_⟩
    rw [this.2.2]
    have hidx := hu.2.2
    have h0 := ht.1
    simp only [stepAct] at hidx ⊢
    rw [hidx]
    split <;> omega

theorem runActs_redoN (n : Nat) :
    ∀ s : EState, tracked s →
    tracked (runActs s (List.replicate n Act.redo)) ∧
    (runActs s (List.replicate n Act.redo)).history = s.history ∧
    (runActs s (List.replicate n Act.redo)).historyIndex
      = min (s.historyIndex + n) ((s.history.length : Int) - 1) := by
  induction n with
  | zero =>
    intro s ht
    refine ⟨ht, rfl, ?_⟩
    have h0 := ht.1
    have h1 := ht.2.1
    simp only [List.replicate, runActs, List.foldl_nil]
    omega
  | succ n ih =>
    intro s ht
    rw [List.replicate_succ, runActs_cons]
    have hr := redo_tracked s ht
    have := ih (stepAct s Act.redo) hr.1
    refine ⟨this.1, this.2.1.trans hr.2.1, ?_⟩
    rw [this.2.2]
    have hidx := hr.2.2
    have h0 := ht.1
    have h1 := ht.2.1
    simp only [stepAct] at hidx ⊢
    rw [hidx, hr.2.1]
    split <;> omega

/-- C2 (amended): for every initial graph and every list of at most 50
graph mutations, recording the initial graph, applying each mutation
followed by a record, and then undoing N times and redoing N times
reproduces, bit-for-bit, the graph as it stood immediately before the first
undo (the graph after the N mutations; the initial graph itself only when
N = 0) — the undo/redo round trip is lossless, even at the capacity-50
eviction boundary.  As frozen, with the result required to equal the
initial graph, the claim is false: see the counterexample theorem. -/
theorem c2_undo_redo_round_trip (ns : List Node) (es : List Edge)
    (gs : List Snap) (h50 : gs.length ≤ 50) :
    (runActs (initState ns es) (roundTripScript gs)).nodes
        = (gs.getLastD (ns, es)).1 ∧
    (runActs (initState ns es) (roundTripScript gs)).edges
        = (gs.getLastD (ns, es)).2 := by
  clear h50
  rw [roundTripScript, runActs_append, runActs_append, runActs_append]
  have h1 : runActs (initState ns es) [Act.record]
      = saveToHistory (initState ns es) := rfl
  rw [h1]
  obtain ⟨ht1, ha1, hn1, he1⟩ := saveToHistory_init ns es
  obtain ⟨ht2, ha2, hg2⟩ :=
    runActs_mutate_record gs (saveToHistory (initState ns es)) ht1 ha1
  rw [hn1, he1] at hg2
  set s2 := runActs (saveToHistory (initState ns es))
    (gs.flatMap fun g => [Act.setGraph g.1 g.2, Act.record]) with hs2
  obtain ⟨ht3, hh3, hi3⟩ := runActs_undoN gs.length s2 ht2
  set s3 := runActs s2 (List.replicate gs.length Act.undo) with hs3
  obtain ⟨ht4, hh4, hi4⟩ := runActs_redoN gs.length s3 ht3
  set s4 := runActs s3 (List.replicate gs.length Act.redo) with hs4
  have hidx : s4.historyIndex = s2.historyIndex := by
    rw [hi4, hi3, hh3]
    have h0 := ht2.1
    have htop : s2.historyIndex = (s2.history.length : Int) - 1 := ha2
    omega
  have hhist : s4.history = s2.history := hh4.trans hh3
  have hsnap : (s4.nodes, s4.edges) = (s2.nodes, s2.edges) := by
    have g4 := ht4.2.2
    have g2 := ht2.2.2
    rw [hhist, hidx] at g4
    exact g4.symm.trans g2
  have := hsnap.trans hg2
  exact ⟨congrArg Prod.fst this, congrArg Prod.snd this⟩

theorem c2_undo_redo_round_trip_witness :
    (runActs (initState [] []) (roundTripScript [([demoNode], [])])).nodes
        = [demoNode] ∧
    (runActs (initState [] []) (roundTripScript [([demoNode], [])])).edges
        = [] := by
  have h := c2_undo_redo_round_trip [] [] [([demoNode], [])] (by decide)
  simpa using h

/-- C2 counterexample: with the empty initial graph and N = 1 — a single
recorded mutation to a one-node graph — the sequence record, mutate, record,
then undo once and redo once ends with the node list holding the demo node,
which differs from the initial (empty) node list: the undo/redo round trip
ends at the graph after the N mutations, not at the initial graph, so the
claim as frozen is false (and at N = 50 the eviction of the oldest snapshot
removes the initial graph from the history altogether). -/
theorem c2_initial_graph_counterexample :
    (runActs (initState [] []) (roundTripScript [([demoNode], [])])).nodes
        = [demoNode] ∧
    (runActs (initState [] []) (roundTripScript [([demoNode], [])])).nodes
        ≠ (initState [] []).nodes := by
  refine ⟨?_, ?_⟩ <;> decide

theorem saveToHistory_nodes (s : EState) : (saveToHistory s).nodes = s.nodes :=
  rfl

theorem saveToHistory_edges (s : EState) : (saveToHistory s).edges = s.edges :=
  rfl

theorem filter_key_split {α : Type} (key : α → String) (l1 l2 : List α)
    (x : α) (hn : ((l1 ++ x :: l2).map key).Nodup) :
    (l1 ++ x :: l2).filter (fun y => key y != key x) = l1 ++ l2 := by
  rw [List.map_append, List.map_cons, List.nodup_append] at hn
  obtain ⟨hn1, hn2, hdisj⟩ := hn
  rw [List.nodup_cons] at hn2
  have h1 : ∀ y ∈ l1, (key y != key x) = true := by
    intro y hy
    have hmem : key y ∉ key x :: l2.map key :=
      hdisj (List.mem_map_of_mem key hy)
    simp only [List.mem_cons, not_or] at hmem
    simpa [bne_iff_ne] using hmem.1
  have h2 : ∀ y ∈ l2, (key y != key x) = true := by
    intro y hy
    have hne : key x ≠ key y := by
      intro hc
      exact hn2.1 (hc ▸ List.mem_map_of_mem key hy)
    simpa [bne_iff_ne] using hne.symm
  rw [List.filter_append, List.filter_cons,
    List.filter_eq_self.mpr h1, List.filter_eq_self.mpr h2]
  simp

/-- C5: for every graph whose node ids are unique and every selected node,
confirmed deletion removes exactly that node from the node list (all other
nodes keep their relative order) and removes exactly the edges whose source
or target equals its id — the surviving edges are a sublist of the old edge
list, and an edge survives iff it touched neither endpoint of the deleted
node's id. -/
theorem c5_delete_node_cascades (s : EState) (sel : Node) (l1 l2 : List Node)
    (hsel : s.selectedNode = some sel)
    (hsplit : s.nodes = l1 ++ sel :: l2)
    (hnodup : (s.nodes.map Node.id).Nodup) :
    (handleDeleteNode s).nodes = l1 ++ l2 ∧
    List.Sublist (handleDeleteNode s).edges s.edges ∧
    (∀ e : Edge, e ∈ (handleDeleteNode s).edges ↔
      (e ∈ s.edges ∧ e.source ≠ sel.id ∧ e.target ≠ sel.id)) := by
  have hnodes : (handleDeleteNode s).nodes
      = s.nodes.filter fun n => n.id != sel.id := by
    simp only [handleDeleteNode, hsel]
    rfl
  have hedges : (handleDeleteNode s).edges
      = s.edges.filter fun e => e.source != sel.id && e.target != sel.id := by
    simp only [handleDeleteNode, hsel]
    rfl
  refine ⟨?_, ?_, ?_⟩
  · rw [hnodes, hsplit]
    exact filter_key_split Node.id l1 l2 sel (hsplit ▸ hnodup)
  · rw [hedges]
    exact List.filter_sublist s.edges
  · intro e
    rw [hedges]
    simp [List.mem_filter, bne_iff_ne, and_assoc]

theorem c5_delete_node_cascades_witness :
    (handleDeleteNode c5State).nodes = [demoNode2] ∧
    List.Sublist (handleDeleteNode c5State).edges c5State.edges ∧
    (∀ e : Edge, e ∈ (handleDeleteNode c5State).edges ↔
      (e ∈ c5State.edges ∧ e.source ≠ demoNode.id ∧ e.target ≠ demoNode.id)) := by
  have h := c5_delete_node_cascades c5State demoNode [demoNode2] [] rfl rfl
    (by decide)
  simpa using h

/-- C7: copying the selected node and pasting adds exactly one new node,
whose id (freshly generated and assumed distinct, as the source accepts
`Date.now()` collisions as negligible) differs from the source node's id,
whose position is the source's offset by (+50, +50), and whose data payload
is structurally identical to the source's; after the paste the clipboard
still holds the copied node, so paste can be repeated. -/
theorem c7_copy_paste_fresh_node (s : EState) (sel : Node) (now : Nat)
    (hsel : s.selectedNode = some sel) (hid : sel.id ≠ "")
    (hfresh : genId now ≠ sel.id) :
    ∃ newNode : Node,
      (handlePaste (handleCopy s) now).nodes = s.nodes ++ [newNode] ∧
      newNode.id ≠ sel.id ∧
      newNode.position = (sel.position.1 + 50, sel.position.2 + 50) ∧
      newNode.data = sel.data ∧
      (handlePaste (handleCopy s) now).clipboard = some sel := by
  have hcopy : handleCopy s = { s with clipboard := some sel } := by
    simp only [handleCopy, hsel, if_neg hid]
  refine ⟨{ sel with
      id := genId now
      position := (sel.position.1 + 50, sel.position.2 + 50) },
    ?_, hfresh, rfl, rfl, ?_⟩
  · rw [hcopy]
    rfl
  · rw [hcopy]
    rfl

theorem c7_copy_paste_fresh_node_witness :
    ∃ newNode : Node,
      (handlePaste (handleCopy c7State) 7).nodes = c7State.nodes ++ [newNode] ∧
      newNode.id ≠ demoNode.id ∧
      newNode.position = (demoNode.position.1 + 50, demoNode.position.2 + 50) ∧
      newNode.data = demoNode.data ∧
      (handlePaste (handleCopy c7State) 7).clipboard = some demoNode :=
  c7_copy_paste_fresh_node c7State demoNode 7 rfl (by decide) (by decide)

theorem lookupObj_append (l1 l2 : Obj) (k : String) :
    List.lookup k (l1 ++ l2)
      = match List.lookup k l1 with
        | some v => some v
        | none => List.lookup k l2 := by
  induction l1 with
  | nil => rfl
  | cons kv t ih =>
      obtain ⟨k1, v1⟩ := kv
      by_cases hk : k = k1
      · subst hk
        simp [List.lookup_cons]
      · simp [List.lookup_cons, beq_false_of_ne hk, ih]

theorem lookupObj_mapMerge (a b : Obj) (k : String) :
    List.lookup k (a.map fun kv =>
        match b.lookup kv.1 with
        | some v => (kv.1, v)
        | none => kv)
      = (List.lookup k a).map fun v => (List.lookup k b).getD v := by
  induction a with
  | nil => rfl
  | cons kv t ih =>
      obtain ⟨k1, v1⟩ := kv
      by_cases hk : k = k1
      · subst hk
        cases hb : List.lookup k b <;> simp [List.lookup_cons, hb]
      · cases hb : List.lookup k1 b <;>
          simp [List.lookup_cons, beq_false_of_ne hk, hb, ih]

theorem lookupObj_filter_not_in (a b : Obj) (k : String)
    (ha : List.lookup k a = none) :
    List.lookup k (b.filter fun kv => (List.lookup kv.1 a).isNone)
      = List.lookup k b := by
  induction b with
  | nil => rfl
  | cons kv t ih =>
      obtain ⟨k1, v1⟩ := kv
      by_cases hk : k = k1
      · subst hk
        rw [List.filter_cons]
        simp [ha, List.lookup_cons]
      · rw [List.filter_cons]
        by_cases hp : (List.lookup k1 a).isNone
        · simp [hp, List.lookup_cons, beq_false_of_ne hk, ih]
        · simp [hp, List.lookup_cons, beq_false_of_ne hk, ih]

theorem lookup_mergeObj_override (a b : Obj) (k : String) (v : Val)
    (hb : List.lookup k b = some v) :
    List.lookup k (mergeObj a b) = some v := by
  rw [mergeObj, lookupObj_append, lookupObj_mapMerge]
  cases ha : List.lookup k a with
  | some w => simp [hb]
  | none =>
      rw [lookupObj_filter_not_in a b k ha]
      exact hb

theorem lookup_mergeObj_retain (a b : Obj) (k : String)
    (hb : List.lookup k b = none) :
    List.lookup k (mergeObj a b) = List.lookup k a := by
  rw [mergeObj, lookupObj_append, lookupObj_mapMerge]
  cases ha : List.lookup k a with
  | some w => simp [hb]
  | none =>
      rw [lookupObj_filter_not_in a b k ha]
      exact hb

/-- C8: saving the node-config form shallow-merges the form's fields into
the selected node's data payload — every key present in the form takes the
form's value, every key absent from the form keeps its old value — while the
node's id, type and position are unchanged; the selection state stays
NodeSelected (`updateState = "node"` with the same selected node): save does
not close the panel. -/
theorem c8_save_node_shallow_merge (s : EState) (sel : Node) (form : Obj)
    (hsel : s.selectedNode = some sel) (hst : s.updateState = "node") :
    (handleSaveNode s form).updateState = "node" ∧
    (handleSaveNode s form).selectedNode = some sel ∧
    ∃ upd : Node,
      upd ∈ (handleSaveNode s form).nodes ∧
      upd.id = sel.id ∧ upd.type = sel.type ∧ upd.position = sel.position ∧
      (∀ k v, List.lookup k form = some v →
        List.lookup k upd.data = some v) ∧
      (∀ k, List.lookup k form = none →
        List.lookup k upd.data = List.lookup k sel.data) := by
  have hdef : handleSaveNode s form
      = saveToHistory
          { s with
            nodes := (s.nodes.filter fun n => n.id != sel.id)
              ++ [{ sel with data := mergeObj sel.data form }] } := by
    simp only [handleSaveNode, hsel]
  refine ⟨?_, ?_, ?_⟩
  · rw [hdef]
    exact hst
  · rw [hdef]
    exact hsel
  · refine ⟨{ sel with data := mergeObj sel.data form }, ?_, rfl, rfl, rfl,
      ?_, ?_⟩
    · rw [hdef, saveToHistory_nodes]
      simp
    · intro k v hkv
      exact lookup_mergeObj_override sel.data form k v hkv
    · intro k hk
      exact lookup_mergeObj_retain sel.data form k hk

theorem c8_save_node_shallow_merge_witness :
    (handleSaveNode c7State [("label", Val.str "x")]).updateState = "node" ∧
    (handleSaveNode c7State [("label", Val.str "x")]).selectedNode
        = some demoNode ∧
    ∃ upd : Node,
      upd ∈ (handleSaveNode c7State [("label", Val.str "x")]).nodes ∧
      upd.id = demoNode.id ∧ upd.type = demoNode.type ∧
      upd.position = demoNode.position ∧
      (∀ k v, List.lookup k [("label", Val.str "x")] = some v →
        List.lookup k upd.data = some v) ∧
      (∀ k, List.lookup k [("label", Val.str "x")] = none →
        List.lookup k upd.data = List.lookup k demoNode.data) :=
  c8_save_node_shallow_merge c7State demoNode [("label", Val.str "x")] rfl rfl

/-- C9: saving a node's configuration does not keep the node in place — the
edited node is removed from its position and a node with its id is appended
at the end of the node list, all other nodes keeping their relative order
unchanged; the same holds for the edge list when an edge's configuration is
saved. -/
theorem c9_save_moves_entity_to_end (s : EState) (sel : Node) (sedge : Edge)
    (form : Obj) (f : EdgeForm) (l1 l2 : List Node) (m1 m2 : List Edge)
    (hseln : s.selectedNode = some sel)
    (hsplitn : s.nodes = l1 ++ sel :: l2)
    (hnodupn : (s.nodes.map Node.id).Nodup)
    (hsele : s.selectedEdge = some sedge)
    (hsplite : s.edges = m1 ++ sedge :: m2)
    (hnodupe : (s.edges.map Edge.id).Nodup) :
    (∃ upd : Node, upd.id = sel.id ∧
      (handleSaveNode s form).nodes = (l1 ++ l2) ++ [upd]) ∧
    (∃ upd : Edge, upd.id = sedge.id ∧
      (handleSaveEdge s f).edges = (m1 ++ m2) ++ [upd]) := by
  constructor
  · refine ⟨{ sel with data := mergeObj sel.data form }, rfl, ?_⟩
    have hdef : (handleSaveNode s form).nodes
        = (s.nodes.filter fun n => n.id != sel.id)
          ++ [{ sel with data := mergeObj sel.data form }] := by
      simp only [handleSaveNode, hseln]
      rfl
    rw [hdef, hsplitn, filter_key_split Node.id l1 l2 sel (hsplitn ▸ hnodupn)]
  · refine ⟨{ sedge with
        label := f.label
        type := f.type
        animated := f.animated
        style := { stroke := f.color, strokeWidth := f.strokeWidth }
        data := { condition := f.condition,
                  description := f.description } }, rfl, ?_⟩
    have hdef : (handleSaveEdge s f).edges
        = (s.edges.filter fun e => e.id != sedge.id)
          ++ [{ sedge with
                label := f.label
                type := f.type
                animated := f.animated
                style := { stroke := f.color, strokeWidth := f.strokeWidth }
                data := { condition := f.condition,
                          description := f.description } }] := by
      simp only [handleSaveEdge, hsele]
      rfl
    rw [hdef, hsplite,
      filter_key_split Edge.id m1 m2 sedge (hsplite ▸ hnodupe)]

theorem c9_save_moves_entity_to_end_witness :
    (∃ upd : Node, upd.id = demoNode.id ∧
      (handleSaveNode c9State [("label", Val.str "x")]).nodes
        = ([demoNode2] ++ []) ++ [upd]) ∧
    (∃ upd : Edge, upd.id = demoEdge12.id ∧
      (handleSaveEdge c9State demoEdgeForm).edges
        = ([] ++ [demoEdge22]) ++ [upd]) :=
  c9_save_moves_entity_to_end c9State demoNode demoEdge12
    [("label", Val.str "x")] demoEdgeForm [demoNode2] [] [] [demoEdge22]
    rfl rfl (by decide) rfl rfl (by decide)

theorem contains_eq_true_of_mem {a : String} {l : List String} (h : a ∈ l) :
    l.contains a = true :=
  List.elem_iff.mpr h

theorem contains_eq_false_of_not_mem {a : String} {l : List String}
    (h : a ∉ l) : l.contains a = false := by
  rw [Bool.eq_false_iff]
  intro hc
  exact h (List.elem_iff.mp hc)

theorem edgeRefErrs_nil_of_ok (ids : List String) (l : List Edge)
    (hok : ∀ d ∈ l, d.source ∈ ids ∧ d.target ∈ ids) :
    edgeRefErrs ids l = [] := by
  rw [edgeRefErrs, List.flatMap_eq_nil_iff]
  intro d hd
  obtain ⟨hs, ht⟩ := hok d hd
  rw [if_pos (contains_eq_true_of_mem hs),
    if_pos (contains_eq_true_of_mem ht)]
  rfl

/-- C6: on a non-empty graph with no start-kind node, at least one end-kind
node, and exactly one dangling edge endpoint (one edge with exactly one of
its source/target ids absent from the node id set, every other edge fully
resolved), the validator produces exactly two errors — the missing-start
error followed by one error naming the dangling edge — and the run is
treated as failed. -/
theorem c6_validate_missing_start_and_dangling (ns : List Node)
    (es l1 l2 : List Edge) (e : Edge)
    (hne : ns ≠ [])
    (hstart : ns.filter (fun n => n.type == "input") = [])
    (hend : ns.filter (fun n => n.type == "output") ≠ [])
    (hsplit : es = l1 ++ e :: l2)
    (hok1 : ∀ d ∈ l1, d.source ∈ ns.map Node.id ∧ d.target ∈ ns.map Node.id)
    (hok2 : ∀ d ∈ l2, d.source ∈ ns.map Node.id ∧ d.target ∈ ns.map Node.id)
    (hdangle : (e.source ∈ ns.map Node.id ∧ e.target ∉ ns.map Node.id) ∨
      (e.source ∉ ns.map Node.id ∧ e.target ∈ ns.map Node.id)) :
    ∃ m : VMsg, (handleValidate ns es).errors = [VMsg.noStart, m] ∧
      (m = VMsg.srcMissing (edgeName e) ∨ m = VMsg.tgtMissing (edgeName e)) ∧
      validationFailed (handleValidate ns es) = true := by
  have hnsne : ¬ ns.length = 0 := by
    simpa [List.length_eq_zero] using hne
  have hstart0 : (ns.filter fun n => n.type == "input").length = 0 := by
    rw [hstart]
    rfl
  have hend0 : ¬ (ns.filter fun n => n.type == "output").length = 0 := by
    simpa [List.length_eq_zero] using hend
  have herr : (handleValidate ns es).errors
      = VMsg.noStart :: edgeRefErrs (ns.map Node.id) es := by
    simp only [handleValidate, if_neg hnsne, if_pos hstart0, if_neg hend0]
    rfl
  have hmid : edgeRefErrs (ns.map Node.id) es
      = edgeRefErrs (ns.map Node.id) l1
        ++ edgeRefErrs (ns.map Node.id) [e]
        ++ edgeRefErrs (ns.map Node.id) l2 := by
    rw [hsplit]
    simp [edgeRefErrs]
  have hfail : ∀ m : VMsg,
      (handleValidate ns es).errors = [VMsg.noStart, m] →
      validationFailed (handleValidate ns es) = true := by
    intro m hm
    rw [validationFailed, hm]
    rfl
  rcases hdangle with ⟨hs, ht⟩ | ⟨hs, ht⟩
  · have htf : ¬ ((ns.map Node.id).contains e.target = true) := by
      rw [contains_eq_false_of_not_mem ht]
      exact Bool.false_ne_true
    have hone : edgeRefErrs (ns.map Node.id) [e]
        = [VMsg.tgtMissing (edgeName e)] := by
      simp only [edgeRefErrs, List.flatMap_cons, List.flatMap_nil,
        if_pos (contains_eq_true_of_mem hs), if_neg htf]
      rfl
    refine ⟨VMsg.tgtMissing (edgeName e), ?_, Or.inr rfl, ?_⟩
    · rw [herr, hmid, edgeRefErrs_nil_of_ok _ l1 hok1,
        edgeRefErrs_nil_of_ok _ l2 hok2, hone]
      rfl
    · apply hfail
      rw [herr, hmid, edgeRefErrs_nil_of_ok _ l1 hok1,
        edgeRefErrs_nil_of_ok _ l2 hok2, hone]
      rfl
  · have hsf : ¬ ((ns.map Node.id).contains e.source = true) := by
      rw [contains_eq_false_of_not_mem hs]
      exact Bool.false_ne_true
    have hone : edgeRefErrs (ns.map Node.id) [e]
        = [VMsg.srcMissing (edgeName e)] := by
      simp only [edgeRefErrs, List.flatMap_cons, List.flatMap_nil,
        if_neg hsf, if_pos (contains_eq_true_of_mem ht)]
      rfl
    refine ⟨VMsg.srcMissing (edgeName e), ?_, Or.inl rfl, ?_⟩
    · rw [herr, hmid, edgeRefErrs_nil_of_ok _ l1 hok1,
        edgeRefErrs_nil_of_ok _ l2 hok2, hone]
      rfl
    · apply hfail
      rw [herr, hmid, edgeRefErrs_nil_of_ok _ l1 hok1,
        edgeRefErrs_nil_of_ok _ l2 hok2, hone]
      rfl

theorem c6_validate_missing_start_and_dangling_witness :
    ∃ m : VMsg, (handleValidate [c6Node] [c6Edge]).errors
        = [VMsg.noStart, m] ∧
      (m = VMsg.srcMissing (edgeName c6Edge) ∨
        m = VMsg.tgtMissing (edgeName c6Edge)) ∧
      validationFailed (handleValidate [c6Node] [c6Edge]) = true :=
  c6_validate_missing_start_and_dangling [c6Node] [c6Edge] [] [] c6Edge
    (by decide) (by decide) (by decide) rfl (by simp) (by simp)
    (Or.inr (by decide))

/-- C10: on the empty graph the validator does not stop at the first failed
check: it reports exactly the three errors no-nodes, missing-start and
missing-end, in that order, no warnings, and the run is treated as failed. -/
theorem c10_validate_empty_graph :
    handleValidate [] [] =
      { errors := [VMsg.noNodes, VMsg.noStart, VMsg.noEnd], warnings := [] } ∧
    validationFailed (handleValidate [] []) = true := by
  exact ⟨rfl, rfl⟩

end Workflow

namespace WorkflowJS

/-- C3, evaluated at the failing input: loading a slot that parses to an
object without `nodes`/`edges` fields reports the load-failed error, yet the
node list has been overwritten with `undefined` — the graph is not what it
was before the call, although the claim requires every failing load to leave
it untouched.  The two pure failure modes (missing slot, unparseable text)
do leave the state untouched. -/
theorem c3_load_failure_overwrites_graph :
    (handleLoad c3State c3Slot).2 = LoadMsg.loadFailed ∧
    (handleLoad c3State c3Slot).1.nodes = JVal.undefinedV ∧
    (handleLoad c3State c3Slot).1.nodes ≠ c3State.nodes ∧
    handleLoad c3State (some none) = (c3State, LoadMsg.loadFailed) ∧
    handleLoad c3State none = (c3State, LoadMsg.noSavedData) := by
  refine ⟨rfl, rfl, ?_, rfl, rfl⟩
  intro h
  rw [show (handleLoad c3State c3Slot).1.nodes = JVal.undefinedV from rfl] at h
  rw [show c3State.nodes
      = JVal.arr [JVal.obj [("id", JVal.str "start")]] from rfl] at h
  exact JVal.noConfusion h

/-- C4 counterexample: a file whose parse yields an object with `nodes`
present (value `0`) and `edges` present (an array) has both fields present,
yet the import reports the invalid-format notice and leaves the graph
unchanged instead of replacing it; and a file whose text is `null` parses
while lacking both fields, yet the import reports the parse-failed notice,
not the invalid-format one. -/
theorem c4_import_counterexample :
    handleFileChange c4State
        (some (.obj [("nodes", .num 0), ("edges", .arr [])]))
      = (c4State, ImportMsg.invalidFormat) ∧
    c4State.nodes ≠ JVal.num 0 ∧
    handleFileChange c4State (some .null) = (c4State, ImportMsg.parseFailed) ∧
    ImportMsg.parseFailed ≠ ImportMsg.invalidFormat := by
  refine ⟨rfl, ?_, rfl, by decide⟩
  intro h
  rw [show c4State.nodes
      = JVal.arr [JVal.obj [("id", JVal.str "start")]] from rfl] at h
  exact JVal.noConfusion h

theorem truthy_ne_undefinedV {v : JVal} (h : truthy v = true) : v ≠ JVal.undefinedV := by
  intro hv
  subst hv
  simp [truthy] at h

theorem jsSaveToHistory_eq (n e : JVal) (h : List (JVal × JVal)) (i : Int)
    (hn : n ≠ JVal.undefinedV) (he : e ≠ JVal.undefinedV) :
    jsSaveToHistory ⟨n, e, h, i⟩
      = some ⟨n, e, (Workflow.pushHistory h i (n, e)).1,
          (Workflow.pushHistory h i (n, e)).2⟩ := by
  cases n <;> cases e <;> simp_all [jsSaveToHistory]

/-- C4 (amended): the import trichotomy as implemented.  A file whose parse
yields a value with truthy `nodes` and `edges` fields replaces the graph
with those values, records one snapshot of them and reports success; a parse
result on which member access succeeds but either field is missing or falsy
leaves the state unchanged and reports the invalid-format notice; an
unparseable file, or one parsing to `null` or another value on which member
access throws, leaves the state unchanged and reports the parse-failed
notice. -/
theorem c4_import_trichotomy :
    (∀ (s : JState) (d ns es : JVal),
      jsGet d "nodes" = Except.ok ns → jsGet d "edges" = Except.ok es →
      truthy ns = true → truthy es = true →
      (handleFileChange s (some d)).1.nodes = ns ∧
      (handleFileChange s (some d)).1.edges = es ∧
      (handleFileChange s (some d)).1.history
        = (Workflow.pushHistory s.history s.historyIndex (ns, es)).1 ∧
      (handleFileChange s (some d)).2 = ImportMsg.success) ∧
    (∀ (s : JState) (d ns es : JVal),
      jsGet d "nodes" = Except.ok ns → jsGet d "edges" = Except.ok es →
      (truthy ns && truthy es) = false →
      handleFileChange s (some d) = (s, ImportMsg.invalidFormat)) ∧
    (∀ s : JState, handleFileChange s none = (s, ImportMsg.parseFailed)) ∧
    (∀ (s : JState) (d : JVal), jsGet d "nodes" = Except.error () →
      handleFileChange s (some d) = (s, ImportMsg.parseFailed)) := by
  refine ⟨?_, ?_, ?_, ?_⟩
  · intro s d ns es hn he htn hte
    have hsave := jsSaveToHistory_eq ns es s.history s.historyIndex
      (truthy_ne_undefinedV htn) (truthy_ne_undefinedV hte)
    simp only [handleFileChange, hn, he, htn, hte, Bool.and_self, if_pos]
    rw [show ({ s with nodes := ns, edges := es } : JState)
        = ⟨ns, es, s.history, s.historyIndex⟩ from rfl, hsave]
    exact ⟨rfl, rfl, rfl, rfl⟩
  · intro s d ns es hn he hfalse
    simp only [handleFileChange, hn, he, hfalse]
    rfl
  · intro s
    rfl
  · intro s d hd
    simp only [handleFileChange, hd]

theorem c4_import_trichotomy_witness :
    (handleFileChange c4State (some c4File)).1.nodes = JVal.arr [.str "n"] ∧
    (handleFileChange c4State (some c4File)).2 = ImportMsg.success ∧
    handleFileChange c4State (some (.obj [("foo", .num 1)]))
      = (c4State, ImportMsg.invalidFormat) := by
  have h1 := c4_import_trichotomy.1 c4State c4File
    (JVal.arr [.str "n"]) (JVal.arr []) rfl rfl rfl rfl
  have h2 := c4_import_trichotomy.2.1 c4State (JVal.obj [("foo", .num 1)])
    JVal.undefinedV JVal.undefinedV rfl rfl rfl
  exact ⟨h1.1, h1.2.2.2, h2⟩

end WorkflowJS
